import Mathlib

/-!
Verification of the py-asterisk manager client (py_star/manager.py).

The definitions below are a shallow embedding of the relevant parts of the
source: the message parser (ManagerMessage.parse and init), the routing
performed by Manager.message_loop, the frame reader (Manager._receive_data
inner loop), the event dispatcher (Manager.event_dispatch), the response
queue FIFO discipline used by Manager.send_action, ActionID sequencing
(Manager.next_seq), and the connect guard (Manager.connect).  Python dicts
are modelled as association lists with Python dict update semantics
(replace in place, append when absent); strings are Lean strings with
helper functions mirroring the exact Python string operations used.
-/

/-- The wire end-of-line marker, EOL in the source. -/
def EOL : String := "\r\n"

/-- The multi-line terminator marker used by the source. -/
def endMarker : String := "--END COMMAND--"

/-- Python whitespace set used by str.strip with no argument. -/
def isPyWS (c : Char) : Bool :=
  c = ' ' || c = '\t' || c = '\n' || c = '\r' || c = '\x0b' || c = '\x0c'

/-- Model of Python str.strip with no argument. -/
def pyStrip (s : String) : String :=
  String.mk (((s.data.dropWhile isPyWS).reverse.dropWhile isPyWS).reverse)

/-- Split a character list at the first occurrence of sep, if any. -/
def splitCharOnce : List Char → Char → Option (List Char × List Char)
  | [], _ => none
  | c :: cs, sep =>
    if c = sep then some ([], cs)
    else
      match splitCharOnce cs sep with
      | none => none
      | some (a, b) => some (c :: a, b)

/-- Model of the two-piece result of Python str.split(sep, 1). -/
def splitOnceColon (s : String) : Option (String × String) :=
  match splitCharOnce s.data ':' with
  | none => none
  | some (a, b) => some (String.mk a, String.mk b)

/-- Model of line.split(sep, 1) index 1, total with default empty string. -/
def restAfterColon (s : String) : String :=
  match splitCharOnce s.data ':' with
  | none => ""
  | some (_, b) => String.mk b

/-- Split a character list at every occurrence of sep, Python str.split. -/
def splitCharAll : List Char → Char → List (List Char)
  | [], _ => [[]]
  | c :: cs, sep =>
    if c = sep then [] :: splitCharAll cs sep
    else
      match splitCharAll cs sep with
      | [] => [[c]]
      | g :: gs => (c :: g) :: gs

/-- Model of Python str.split(sep) for a one-character separator. -/
def pySplit (s : String) (c : Char) : List String :=
  (splitCharAll s.data c).map String.mk

/-- Indexing into a Python split result, total with default empty string. -/
def splitIdx (s : String) (c : Char) (i : Nat) : String :=
  (pySplit s c).getD i ""

/-- Whether a character occurs in a string, Python membership test. -/
def containsChar (s : String) (c : Char) : Bool :=
  s.data.any (fun x => x = c)

/-- Whether the second list is a leading segment of the first. -/
def startsChars : List Char → List Char → Bool
  | _, [] => true
  | [], _ :: _ => false
  | b :: bs, s :: ss => b = s && startsChars bs ss

/-- Model of Python str.startswith. -/
def strStartsWith (s t : String) : Bool := startsChars s.data t.data

/-- Model of Python str.endswith. -/
def strEndsWith (s t : String) : Bool := startsChars s.data.reverse t.data.reverse

/-- Whether pat occurs as a contiguous substring, Python in on strings. -/
def hasSubChars : List Char → List Char → Bool
  | [], small => startsChars [] small
  | b :: bs, small => startsChars (b :: bs) small || hasSubChars bs small

/-- Substring containment on strings, Python in on strings. -/
def hasSub (s pat : String) : Bool := hasSubChars s.data pat.data

/-! Python dict semantics as association lists.  Python dicts keep one
entry per key in insertion order; assignment replaces the value in place,
a new key is appended at the end. -/

/-- A Python dict from header names to header values. -/
abbrev PyDict := List (String × String)

/-- Python dict lookup. -/
def dGet : PyDict → String → Option String
  | [], _ => none
  | p :: rest, k => if p.1 = k then some p.2 else dGet rest k

/-- Python dict membership test, k in d. -/
def dHas (d : PyDict) (k : String) : Bool := (dGet d k).isSome

/-- Python dict assignment d[k] = v. -/
def dSet : PyDict → String → String → PyDict
  | [], k, v => [(k, v)]
  | p :: rest, k, v => if p.1 = k then (k, v) :: rest else p :: dSet rest k v

/-- The multiheaders dict: header name to ordered list of values. -/
abbrev MultiDict := List (String × List String)

/-- Lookup in the multiheaders dict. -/
def mGet : MultiDict → String → Option (List String)
  | [], _ => none
  | p :: rest, k => if p.1 = k then some p.2 else mGet rest k

/-- The source pattern: if k not in multi then multi[k] = []; then
multi[k].append(v). -/
def mAppend : MultiDict → String → String → MultiDict
  | [], k, v => [(k, [v])]
  | p :: rest, k, v =>
    if p.1 = k then (p.1, p.2 ++ [v]) :: rest else p :: mAppend rest k v

/-- Plain assignment multi[k] = vs, used by the recovery ladder. -/
def mSet : MultiDict → String → List String → MultiDict
  | [], k, vs => [(k, vs)]
  | p :: rest, k, vs => if p.1 = k then (k, vs) :: rest else p :: mSet rest k vs

/-! ManagerMessage: parse and the recovery ladder of the constructor. -/

/-- A parsed manager message: headers dict, multiheaders dict, and the
free-form body kept as its list of raw lines (the body string of the
source is the verbatim concatenation of these lines). -/
structure MMsg where
  headers : PyDict
  multiheaders : MultiDict
  dataLines : List String
deriving DecidableEq

/-- The data attribute of the source: the joined free-form body. -/
def MMsg.data (m : MMsg) : String := String.join m.dataLines

/-- ManagerMessage.parse: scan lines; a line ending in EOL that splits on
its first colon is a header (both sides stripped, last value wins in
headers, every value appended in multiheaders); the first line failing
either test starts the body, which is that line and all remaining lines. -/
def parseLoop : List String → PyDict → MultiDict → MMsg
  | [], h, m => ⟨h, m, []⟩
  | line :: rest, h, m =>
    if strEndsWith line EOL then
      match splitOnceColon line with
      | some (a, b) =>
          parseLoop rest (dSet h (pyStrip a) (pyStrip b))
            (mAppend m (pyStrip a) (pyStrip b))
      | none => ⟨h, m, line :: rest⟩
    else ⟨h, m, line :: rest⟩

/-- The state of a ManagerMessage right after parse, before the recovery
ladder of the constructor runs. -/
def parseMessage (response : List String) : MMsg := parseLoop response [] []

/-- The recovery ladder at the end of ManagerMessage init: when neither
Event nor Response was parsed, synthesize Response: Generated Header when
an ActionID is present, else Event: NoClue when the body contains the end
marker, else Response: Generated Header. -/
def synthMessage (m : MMsg) : MMsg :=
  if dHas m.headers "Event" || dHas m.headers "Response" then m
  else if dHas m.headers "ActionID" then
    ⟨dSet m.headers "Response" "Generated Header",
      mSet m.multiheaders "Response" ["Generated Header"], m.dataLines⟩
  else if hasSub (MMsg.data m) endMarker then
    ⟨dSet m.headers "Event" "NoClue",
      mSet m.multiheaders "Event" ["NoClue"], m.dataLines⟩
  else
    ⟨dSet m.headers "Response" "Generated Header",
      mSet m.multiheaders "Response" ["Generated Header"], m.dataLines⟩

/-- Constructing a ManagerMessage from a raw line-group. -/
def managerMessage (response : List String) : MMsg :=
  synthMessage (parseMessage response)

/-- Where message_loop routes a parsed message. -/
inductive Route
  | toEvent
  | toResponse
  | noClue
deriving DecidableEq

/-- The routing of Manager.message_loop: Event header first, then
Response header, else the defensive no-clue branch. -/
def routeMessage (m : MMsg) : Route :=
  if dHas m.headers "Event" then Route.toEvent
  else if dHas m.headers "Response" then Route.toResponse
  else Route.noClue

/-! Dict lemmas. -/

theorem dGet_dSet (d : PyDict) (a v k) :
    dGet (dSet d a v) k = if a = k then some v else dGet d k := by
  induction d with
  | nil => simp [dSet, dGet]
  | cons p rest ih =>
    by_cases hp : p.1 = a
    · by_cases hk : a = k <;> simp [dSet, dGet, hp, hk]
    · by_cases hk : p.1 = k
      · have h1 : ¬ a = k := fun h => hp (hk.trans h.symm)
        have h2 : ¬ k = a := fun h => h1 h.symm
        simp [dSet, dGet, hp, hk, h1, h2]
      · simp [dSet, dGet, hp, hk, ih]

theorem dHas_dSet (d : PyDict) (a v k) :
    dHas (dSet d a v) k = (decide (a = k) || dHas d k) := by
  by_cases h : a = k <;> simp [dHas, dGet_dSet, h]

theorem mGet_mSet (m : MultiDict) (a vs k) :
    mGet (mSet m a vs) k = if a = k then some vs else mGet m k := by
  induction m with
  | nil => simp [mSet, mGet]
  | cons p rest ih =>
    by_cases hp : p.1 = a
    · by_cases hk : a = k <;> simp [mSet, mGet, hp, hk]
    · by_cases hk : p.1 = k
      · have h1 : ¬ a = k := fun h => hp (hk.trans h.symm)
        have h2 : ¬ k = a := fun h => h1 h.symm
        simp [mSet, mGet, hp, hk, h1, h2]
      · simp [mSet, mGet, hp, hk, ih]

theorem mGet_mAppend (m : MultiDict) (a v k) :
    mGet (mAppend m a v) k =
      if a = k then some (((mGet m a).getD []) ++ [v]) else mGet m k := by
  induction m with
  | nil => by_cases hk : a = k <;> simp [mAppend, mGet, hk]
  | cons p rest ih =>
    by_cases hp : p.1 = a
    · by_cases hk : a = k <;> simp [mAppend, mGet, hp, hk]
    · by_cases hk : p.1 = k
      · have h1 : ¬ a = k := fun h => hp (hk.trans h.symm)
        have h2 : ¬ k = a := fun h => h1 h.symm
        simp [mAppend, mGet, hp, hk, h1, h2]
      · simp [mAppend, mGet, hp, hk, ih]

/-- C1: every raw line-group yields a message routed as Event or
Response; when neither header was parsed, the recovery ladder runs in
source order (ActionID gives Response: Generated Header, else an end
marker in the body gives Event: NoClue, else Response: Generated
Header); and message_loop routes on the Event header before the
Response header. -/
theorem C1_classification_totality (response : List String) :
    (routeMessage (managerMessage response) = Route.toEvent ∨
      routeMessage (managerMessage response) = Route.toResponse) ∧
    (dHas (parseMessage response).headers "Event" = false →
      dHas (parseMessage response).headers "Response" = false →
      ((dHas (parseMessage response).headers "ActionID" = true →
          dGet (managerMessage response).headers "Response" =
            some "Generated Header") ∧
        (dHas (parseMessage response).headers "ActionID" = false →
          hasSub (MMsg.data (parseMessage response)) endMarker = true →
          dGet (managerMessage response).headers "Event" = some "NoClue") ∧
        (dHas (parseMessage response).headers "ActionID" = false →
          hasSub (MMsg.data (parseMessage response)) endMarker = false →
          dGet (managerMessage response).headers "Response" =
            some "Generated Header"))) ∧
    (dHas (managerMessage response).headers "Event" = true →
      routeMessage (managerMessage response) = Route.toEvent) := by
  refine ⟨?_, ?_, ?_⟩
  · unfold managerMessage synthMessage routeMessage
    cases hE : dHas (parseMessage response).headers "Event" <;>
      cases hR : dHas (parseMessage response).headers "Response" <;>
        simp [hE, hR]
    cases hA : dHas (parseMessage response).headers "ActionID" <;>
      cases hM : hasSub (MMsg.data (parseMessage response)) endMarker <;>
        simp [hA, hM, dHas_dSet, hE, hR]
  · intro hE hR
    refine ⟨?_, ?_, ?_⟩
    · intro hA
      simp [managerMessage, synthMessage, hE, hR, hA, dGet_dSet]
    · intro hA hM
      simp [managerMessage, synthMessage, hE, hR, hA, hM, dGet_dSet]
    · intro hA hM
      simp [managerMessage, synthMessage, hE, hR, hA, hM, dGet_dSet]
  · intro h
    simp [routeMessage, h]

theorem C1_witness :
    dGet (managerMessage ["--END COMMAND--\r\n"]).headers "Event" =
      some "NoClue" :=
  ((C1_classification_totality ["--END COMMAND--\r\n"]).2.1 (by decide)
    (by decide)).2.1 (by decide) (by decide)

/-! C3: characterization of ManagerMessage.parse. -/

/-- A line that parse accepts as a header: it ends in EOL and splits at a
first colon. -/
def isHeaderLine (line : String) : Bool :=
  strEndsWith line EOL && (splitOnceColon line).isSome

/-- The stripped key and value of each header-shaped line, in order. -/
def stripPairs : List String → List (String × String)
  | [] => []
  | line :: rest =>
    match splitOnceColon line with
    | some (a, b) => (pyStrip a, pyStrip b) :: stripPairs rest
    | none => stripPairs rest

/-- The header pairs parse extracts from a raw line-group. -/
def headerPairs (response : List String) : List (String × String) :=
  stripPairs (response.takeWhile isHeaderLine)

/-- The last value recorded for a key: later pairs take precedence. -/
def lastVal : List (String × String) → String → Option String
  | [], _ => none
  | p :: rest, k =>
    match lastVal rest k with
    | some v => some v
    | none => if p.1 = k then some p.2 else none

/-- Every value recorded for a key, in order of appearance. -/
def allVals : List (String × String) → String → List String
  | [], _ => []
  | p :: rest, k => if p.1 = k then p.2 :: allVals rest k else allVals rest k

theorem parseLoop_split (response : List String) :
    ∀ (h : PyDict) (m : MultiDict),
      parseLoop response h m =
        ⟨(stripPairs (response.takeWhile isHeaderLine)).foldl
            (fun d p => dSet d p.1 p.2) h,
          (stripPairs (response.takeWhile isHeaderLine)).foldl
            (fun d p => mAppend d p.1 p.2) m,
          response.dropWhile isHeaderLine⟩ := by
  induction response with
  | nil => intro h m; simp [parseLoop, stripPairs]
  | cons line rest ih =>
    intro h m
    by_cases hE : strEndsWith line EOL
    · cases hS : splitOnceColon line with
      | some p =>
        have hHdr : isHeaderLine line = true := by simp [isHeaderLine, hE, hS]
        obtain ⟨a, b⟩ := p
        simp [parseLoop, hE, hS, List.takeWhile_cons, List.dropWhile_cons,
          hHdr, stripPairs, ih]
      | none =>
        have hHdr : isHeaderLine line = false := by
          simp [isHeaderLine, hE, hS]
        simp [parseLoop, hE, hS, List.takeWhile_cons, List.dropWhile_cons,
          hHdr, stripPairs]
    · have hHdr : isHeaderLine line = false := by simp [isHeaderLine, hE]
      simp [parseLoop, hE, List.takeWhile_cons, List.dropWhile_cons, hHdr,
        stripPairs]

theorem dGet_foldl (ps : List (String × String)) :
    ∀ (d : PyDict) (k : String),
      dGet (ps.foldl (fun d p => dSet d p.1 p.2) d) k =
        (match lastVal ps k with
         | some v => some v
         | none => dGet d k) := by
  induction ps with
  | nil => intro d k; simp [lastVal]
  | cons p rest ih =>
    intro d k
    simp only [List.foldl_cons, lastVal]
    rw [ih]
    cases lastVal rest k with
    | some v => simp
    | none => by_cases hp : p.1 = k <;> simp [dGet_dSet, hp]

theorem mGet_foldl (ps : List (String × String)) :
    ∀ (m : MultiDict) (k : String),
      mGet (ps.foldl (fun d p => mAppend d p.1 p.2) m) k =
        (if allVals ps k = [] then mGet m k
         else some (((mGet m k).getD []) ++ allVals ps k)) := by
  induction ps with
  | nil => intro m k; simp [allVals]
  | cons p rest ih =>
    intro m k
    simp only [List.foldl_cons]
    rw [ih]
    by_cases hp : p.1 = k
    · have h1 : allVals (p :: rest) k = p.2 :: allVals rest k := by
        simp [allVals, hp]
      have h2 : mGet (mAppend m p.1 p.2) k =
          some (((mGet m k).getD []) ++ [p.2]) := by
        rw [mGet_mAppend]; simp [hp]
      by_cases hr : allVals rest k = []
      · simp [h1, h2, hr]
      · simp [h1, h2, hr]
    · have h1 : allVals (p :: rest) k = allVals rest k := by
        simp [allVals, hp]
      have h2 : mGet (mAppend m p.1 p.2) k = mGet m k := by
        rw [mGet_mAppend]; simp [hp]
      simp [h1, h2]

/-- C3: parse consumes the leading run of lines that end in CRLF and
split at a first colon as headers, each split on its first colon with
both sides stripped; the header map holds the last value seen per key,
the multiheaders map holds every value per key in order of appearance,
and the body is the verbatim concatenation of the first failing line and
all remaining lines. -/
theorem C3_parse_characterization (response : List String) (key : String) :
    (parseMessage response).dataLines = response.dropWhile isHeaderLine ∧
    MMsg.data (parseMessage response) =
      String.join (response.dropWhile isHeaderLine) ∧
    dGet (parseMessage response).headers key =
      lastVal (headerPairs response) key ∧
    mGet (parseMessage response).multiheaders key =
      (if allVals (headerPairs response) key = [] then none
       else some (allVals (headerPairs response) key)) := by
  have h := parseLoop_split response [] []
  unfold parseMessage
  rw [h]
  refine ⟨rfl, rfl, ?_, ?_⟩
  · rw [dGet_foldl]
    unfold headerPairs
    cases hl : lastVal (stripPairs (response.takeWhile isHeaderLine)) key <;>
      simp [hl, dGet]
  · rw [mGet_foldl]
    unfold headerPairs
    by_cases hv :
        allVals (stripPairs (response.takeWhile isHeaderLine)) key = [] <;>
      simp [hv, mGet]

/-! C4: the sentinel branch of Manager.message_loop. -/

/-- An item dequeued from the message queue by message_loop. -/
inductive QIn
  | sentinel
  | rawData (lines : List String)
deriving DecidableEq

/-- An item message_loop puts on the event queue. -/
inductive EvOut
  | sentinel
  | ev (m : MMsg)
deriving DecidableEq

/-- An item message_loop puts on the response queue. -/
inductive RespOut
  | sentinel
  | msg (m : MMsg)
deriving DecidableEq

/-- The observable effect of one iteration of the message_loop body:
what is put on the event queue, on the response queue, on the error
queue, and whether the loop breaks. -/
structure LoopStep where
  eventPuts : List EvOut
  responsePuts : List RespOut
  errorPuts : List String
  breaks : Bool
deriving DecidableEq

/-- One iteration of Manager.message_loop: on the sentinel, put one
sentinel on the event queue and one on the response queue per entry of
the response waiters list, then break; otherwise parse and route. -/
def messageLoopStep (waiters : List Unit) : QIn → LoopStep
  | QIn.sentinel =>
      ⟨[EvOut.sentinel], waiters.map (fun _ => RespOut.sentinel), [], true⟩
  | QIn.rawData lines =>
      let m := managerMessage lines
      if dHas m.headers "Event" then ⟨[EvOut.ev m], [], [], false⟩
      else if dHas m.headers "Response" then ⟨[], [RespOut.msg m], [], false⟩
      else ⟨[], [RespOut.sentinel], [MMsg.data m], false⟩

/-- C4: dequeuing the termination sentinel with N outstanding response
waiters puts exactly one sentinel on the event queue and exactly N
sentinels on the response queue, then exits the loop. -/
theorem C4_sentinel_fanout (waiters : List Unit) :
    (messageLoopStep waiters QIn.sentinel).eventPuts = [EvOut.sentinel] ∧
    (messageLoopStep waiters QIn.sentinel).responsePuts =
      List.replicate waiters.length RespOut.sentinel ∧
    (messageLoopStep waiters QIn.sentinel).responsePuts.length =
      waiters.length ∧
    (messageLoopStep waiters QIn.sentinel).breaks = true := by
  refine ⟨rfl, ?_, by simp [messageLoopStep], rfl⟩
  simp [messageLoopStep]

/-! C5: Manager.event_dispatch handler invocation. -/

/-- A registered callback, abstracted as an identifier together with the
truthiness of its return value when invoked on an event of a given name. -/
structure Handler where
  hid : Nat
  run : String → Bool

/-- The event callback registry, a Python dict from event name to the
ordered list of registered callbacks. -/
abbrev CallbackReg := List (String × List Handler)

/-- Registry lookup with default empty list, dict.get(event, []). -/
def cbGet : CallbackReg → String → List Handler
  | [], _ => []
  | p :: rest, k => if p.1 = k then p.2 else cbGet rest k

/-- Registry assignment reg[event] = callbacks. -/
def cbSet : CallbackReg → String → List Handler → CallbackReg
  | [], k, v => [(k, v)]
  | p :: rest, k, v => if p.1 = k then (k, v) :: rest else p :: cbSet rest k v

/-- Manager.register_event: append the callback to the current list for
the event name. -/
def registerEvent (reg : CallbackReg) (event : String) (f : Handler) :
    CallbackReg :=
  cbSet reg event (cbGet reg event ++ [f])

/-- The dispatch loop over the built callback list: invoke each callback
in order; a truthy return value breaks out.  Returns the identifiers of
the callbacks invoked, in invocation order. -/
def runCallbacks (name : String) : List Handler → List Nat
  | [] => []
  | h :: rest =>
      if h.run name then [h.hid] else h.hid :: runCallbacks name rest

/-- Manager.event_dispatch for one event: the callback list is the list
registered under the exact event name followed by the list registered
under the wildcard name, and it is run with the short-circuit rule. -/
def eventDispatchOne (reg : CallbackReg) (name : String) : List Nat :=
  runCallbacks name (cbGet reg name ++ cbGet reg "*")

theorem runCallbacks_eq (name : String) (hs : List Handler) :
    runCallbacks name hs =
      (hs.takeWhile (fun h => !h.run name)).map Handler.hid ++
        (((hs.dropWhile (fun h => !h.run name)).head?.map Handler.hid).toList) := by
  induction hs with
  | nil => simp [runCallbacks]
  | cons h rest ih =>
    by_cases hr : h.run name
    · simp [runCallbacks, hr, List.takeWhile_cons, List.dropWhile_cons]
    · simp [runCallbacks, hr, List.takeWhile_cons, List.dropWhile_cons, ih]

/-- C5: for a dispatched event, the invoked callbacks are exactly the
leading run of falsy-returning handlers of the list (exact-name handlers
in registration order, then wildcard handlers in registration order)
followed by the first truthy-returning handler, if any; everything after
that first truthy handler, wildcard handlers included, is skipped, and
register_event appends at the end of the per-name list. -/
theorem C5_dispatch_order (reg : CallbackReg) (name : String) :
    (eventDispatchOne reg name =
      ((cbGet reg name ++ cbGet reg "*").takeWhile
          (fun h => !h.run name)).map Handler.hid ++
        ((((cbGet reg name ++ cbGet reg "*").dropWhile
            (fun h => !h.run name)).head?.map Handler.hid).toList)) ∧
    (∀ f : Handler, cbGet (registerEvent reg name f) name =
      cbGet reg name ++ [f]) := by
  constructor
  · exact runCallbacks_eq name (cbGet reg name ++ cbGet reg "*")
  · intro f
    unfold registerEvent
    generalize cbGet reg name ++ [f] = v
    induction reg with
    | nil => simp [cbGet, cbSet]
    | cons p rest ih =>
      by_cases hp : p.1 = name <;> simp [cbGet, cbSet, hp, ih]

/-! C6: FIFO response correlation.  Manager.send_action blocks on a get
from the shared response queue; Manager.message_loop puts each arriving
response on that queue in wire-arrival order.  The queue is modelled by
its operation trace: an enq for each response the message loop puts, a
deq for each blocked send_action call, callers unblocking in FIFO order
of blocking. -/

/-- One operation on the response queue. -/
inductive QOp (α : Type)
  | enq (a : α)
  | deq

/-- The values enqueued by a trace, in arrival order. -/
def enqList {α : Type} : List (QOp α) → List α
  | [] => []
  | QOp.enq a :: rest => a :: enqList rest
  | QOp.deq :: rest => enqList rest

/-- The number of dequeues in a trace. -/
def deqCount {α : Type} : List (QOp α) → Nat
  | [] => 0
  | QOp.enq _ :: rest => deqCount rest
  | QOp.deq :: rest => deqCount rest + 1

/-- Whether every dequeue of the trace finds the queue non-empty,
starting from a queue of the given size. -/
def noUnderflow {α : Type} : List (QOp α) → Nat → Bool
  | [], _ => true
  | QOp.enq _ :: rest, n => noUnderflow rest (n + 1)
  | QOp.deq :: _, 0 => false
  | QOp.deq :: rest, n + 1 => noUnderflow rest n

/-- Run a trace against a FIFO queue, accumulating dequeued values in
dequeue order; the k-th dequeued value is what the k-th blocked caller
receives. -/
def runQueue {α : Type} : List (QOp α) → List α → List α → List α × List α
  | [], q, out => (q, out)
  | QOp.enq a :: rest, q, out => runQueue rest (q ++ [a]) out
  | QOp.deq :: rest, [], out => runQueue rest [] out
  | QOp.deq :: rest, a :: q, out => runQueue rest q (out ++ [a])

theorem runQueue_fifo {α : Type} (ops : List (QOp α)) :
    ∀ (q out : List α), noUnderflow ops q.length = true →
      (runQueue ops q out).2 =
        out ++ (q ++ enqList ops).take (deqCount ops) := by
  induction ops with
  | nil => intro q out h; simp [runQueue, deqCount]
  | cons op rest ih =>
    intro q out h
    cases op with
    | enq a =>
      have h2 : noUnderflow rest (q ++ [a]).length = true := by
        simpa [noUnderflow] using h
      simp [runQueue, enqList, deqCount, ih (q ++ [a]) out h2,
        List.append_assoc, List.singleton_append]
    | deq =>
      cases q with
      | nil => simp [noUnderflow] at h
      | cons a q2 =>
        have h2 : noUnderflow rest q2.length = true := by
          simpa [noUnderflow] using h
        simp [runQueue, enqList, deqCount, ih q2 (out ++ [a]) h2,
          List.take_succ_cons]

/-- C6: with send_action callers blocked in FIFO order on the response
queue and responses arriving in a fixed order, any interleaving of queue
operations that never underflows delivers the k-th arriving response to
the k-th blocked caller, whatever the header content of each response:
the pairing is positional, with no ActionID matching. -/
theorem C6_fifo_correlation (rs : List MMsg) (ops : List (QOp MMsg))
    (reqs : List Nat) (h1 : enqList ops = rs)
    (h2 : noUnderflow ops 0 = true) (h3 : deqCount ops = rs.length) :
    (runQueue ops [] []).2 = rs ∧
    reqs.zip (runQueue ops [] []).2 = reqs.zip rs := by
  have h := runQueue_fifo ops [] [] (by simpa using h2)
  rw [h1, h3] at h
  simp at h
  exact ⟨h, by rw [h]⟩

theorem C6_witness :
    (runQueue [QOp.enq (⟨[("Response", "A")], [("Response", ["A"])], []⟩ : MMsg),
        QOp.deq,
        QOp.enq (⟨[("Response", "B"), ("ActionID", "1")], [], []⟩ : MMsg),
        QOp.enq (⟨[("Response", "C")], [], []⟩ : MMsg),
        QOp.deq, QOp.deq] [] []).2 =
      [⟨[("Response", "A")], [("Response", ["A"])], []⟩,
        ⟨[("Response", "B"), ("ActionID", "1")], [], []⟩,
        ⟨[("Response", "C")], [], []⟩] :=
  (C6_fifo_correlation
    [⟨[("Response", "A")], [("Response", ["A"])], []⟩,
      ⟨[("Response", "B"), ("ActionID", "1")], [], []⟩,
      ⟨[("Response", "C")], [], []⟩]
    [QOp.enq (⟨[("Response", "A")], [("Response", ["A"])], []⟩ : MMsg),
      QOp.deq,
      QOp.enq (⟨[("Response", "B"), ("ActionID", "1")], [], []⟩ : MMsg),
      QOp.enq (⟨[("Response", "C")], [], []⟩ : MMsg),
      QOp.deq, QOp.deq]
    [] rfl rfl rfl).1

/-! C7: ActionID assignment in Manager.send_action and next_seq. -/

/-- Manager.next_seq: return the current counter, then increment it. -/
def nextSeq (seq : Nat) : Nat × Nat := (seq, seq + 1)

/-- Left padding to a given width, the Python format width specifier. -/
def padLeftStr (s : String) (w : Nat) (c : Char) : String :=
  String.mk (List.replicate (w - s.data.length) c ++ s.data)

/-- The ActionID format of send_action: hostname, dash, the process id
space-padded to width four, dash, the sequence number in lowercase hex
zero-padded to width eight. -/
def actionIdStr (host : String) (pid seq : Nat) : String :=
  host ++ "-" ++ padLeftStr (String.mk (Nat.toDigits 10 pid)) 4 ' ' ++ "-" ++
    padLeftStr (String.mk (Nat.toDigits 16 seq)) 8 '0'

/-- cdict.update(kwargs): merge the keyword arguments into the dict. -/
def mergeDict (d kwargs : PyDict) : PyDict :=
  kwargs.foldl (fun acc p => dSet acc p.1 p.2) d

/-- The field preparation of send_action: merge kwargs, then assign an
ActionID drawn from next_seq when the merged dict lacks one. -/
def sendActionPrepare (host : String) (pid seq : Nat) (cdict kwargs : PyDict) :
    PyDict × Nat :=
  let merged := mergeDict cdict kwargs
  if dHas merged "ActionID" then (merged, seq)
  else
    (dSet merged "ActionID" (actionIdStr host pid (nextSeq seq).1),
      (nextSeq seq).2)

/-- C7: a field set lacking an ActionID receives one built from the
hostname, the process id and the current sequence number; next_seq
returns the current counter and increments it, so the numbers assigned
by consecutive send_action calls strictly increase. -/
theorem C7_action_id (host : String) (pid seq : Nat) (cdict kwargs : PyDict)
    (h : dHas (mergeDict cdict kwargs) "ActionID" = false) :
    dGet (sendActionPrepare host pid seq cdict kwargs).1 "ActionID" =
      some (actionIdStr host pid seq) ∧
    (sendActionPrepare host pid seq cdict kwargs).2 = seq + 1 ∧
    nextSeq seq = (seq, seq + 1) ∧
    seq < (nextSeq seq).2 := by
  refine ⟨?_, ?_, rfl, Nat.lt_succ_self seq⟩
  · simp [sendActionPrepare, h, dGet_dSet, nextSeq]
  · simp [sendActionPrepare, h, nextSeq]

theorem C7_witness :
    dGet (sendActionPrepare "host" 1234 0 [("Action", "Ping")] []).1
        "ActionID" = some "host-1234-00000000" ∧
    (sendActionPrepare "host" 1234 0 [("Action", "Ping")] []).2 = 1 := by
  have h := C7_action_id "host" 1234 0 [("Action", "Ping")] [] (by decide)
  exact ⟨h.1.trans (by decide), h.2.1⟩

/-! The frame reader: the inner socket-file iteration loop of
Manager._receive_data, with the connected and running flags held true
(the claims below concern a session that stays connected while the group
is read). -/

/-- The loop-carried state of _receive_data: the greeting title and
version and the multiline and wait-for-marker flags. -/
structure RecvState where
  title : Option String
  version : Option String
  multiline : Bool
  waitMarker : Bool
deriving DecidableEq

/-- The outcome of collecting one group: the final state, the group
lines, the unconsumed input and whether input ran out before a group was
complete. -/
structure RecvResult where
  state : RecvState
  group : List String
  rest : List String
  eof : Bool
deriving DecidableEq

/-- The synthesized header line put in front of the greeting banner. -/
def fakeHeader : String := "Response: Generated Header\r\n"

/-- One pass of the _receive_data line loop: greeting detection first,
then the bare-EOL group terminator (ignored in wait-for-marker mode),
then accumulation with the multiline, Response-Follows and end-marker
flag updates, in source order. -/
def recvLoop : RecvState → List String → List String → RecvResult
  | st, acc, [] => ⟨st, acc, [], true⟩
  | st, acc, line :: rest =>
    if st.title.isNone && containsChar line '/' && !(containsChar line ':') then
      ⟨⟨some (pyStrip (splitIdx line '/' 0)), some (pyStrip (splitIdx line '/' 1)),
          st.multiline, st.waitMarker⟩,
        acc ++ [fakeHeader, line], rest, false⟩
    else if line = EOL && !st.waitMarker then
      if acc.isEmpty then
        recvLoop ⟨st.title, st.version, false, st.waitMarker⟩ [] rest
      else ⟨⟨st.title, st.version, false, st.waitMarker⟩, acc, rest, false⟩
    else
      let ml1 := if !(strEndsWith line EOL) || !(containsChar line ':') then
          true
        else st.multiline
      let wfm1 := if !ml1 && strStartsWith line "Response" &&
            pyStrip (restAfterColon line) = "Follows" then
          true
        else st.waitMarker
      let ml2 := if ml1 && strStartsWith line endMarker then false else ml1
      let wfm2 := if ml1 && strStartsWith line endMarker then false else wfm1
      recvLoop ⟨st.title, st.version, ml2, wfm2⟩ (acc ++ [line]) rest

/-! C8: greeting detection. -/

theorem strData_append (s t : String) : (s ++ t).data = s.data ++ t.data := by
  cases s; cases t; rfl

theorem containsChar_eq_false {s : String} {c : Char}
    (h : containsChar s c = false) : ∀ x ∈ s.data, x ≠ c := by
  intro x hx
  simp [containsChar, List.any_eq_false] at h
  exact h x hx

theorem splitCharAll_free (l : List Char) (c : Char)
    (h : ∀ x ∈ l, x ≠ c) : splitCharAll l c = [l] := by
  induction l with
  | nil => rfl
  | cons x xs ih =>
    have hx : ¬ x = c := h x (List.mem_cons_self x xs)
    have hxs := ih (fun y hy => h y (List.mem_cons_of_mem x hy))
    simp [splitCharAll, hx, hxs]

theorem splitCharAll_append (xs ys : List Char) (c : Char)
    (h1 : ∀ x ∈ xs, x ≠ c) (h2 : ∀ x ∈ ys, x ≠ c) :
    splitCharAll (xs ++ c :: ys) c = [xs, ys] := by
  induction xs with
  | nil => simp [splitCharAll, splitCharAll_free ys c h2]
  | cons x rest ih =>
    have hx : ¬ x = c := h1 x (List.mem_cons_self x rest)
    have hrest := ih (fun y hy => h1 y (List.mem_cons_of_mem x hy))
    simp [splitCharAll, hx, hrest]

/-- C8: a first line containing a slash and no colon, received while no
greeting title is recorded, is treated as the banner: the title becomes
the stripped text before the slash, the version the stripped text after
it, and the frame reader ends the group immediately as the synthesized
header line followed by the banner line, consuming nothing further. -/
theorem containsChar_false_iff (s : String) (c : Char) :
    containsChar s c = false ↔ ∀ x ∈ s.data, ¬ x = c := by
  simp [containsChar, List.any_eq_false]

/-- C8: a first line containing a slash and no colon, received while no
greeting title is recorded, is treated as the banner: the title becomes
the stripped text before the slash, the version the stripped text after
it, and the frame reader ends the group immediately as the synthesized
header line followed by the banner line, consuming nothing further. -/
theorem C8_greeting (a b : String) (rest : List String) (ml wfm : Bool)
    (h1 : containsChar a '/' = false) (h2 : containsChar b '/' = false)
    (h3 : containsChar a ':' = false) (h4 : containsChar b ':' = false) :
    recvLoop ⟨none, none, ml, wfm⟩ [] ((a ++ "/" ++ b) :: rest) =
      ⟨⟨some (pyStrip a), some (pyStrip b), ml, wfm⟩,
        [fakeHeader, a ++ "/" ++ b], rest, false⟩ := by
  have hsl : ("/" : String).data = ['/'] := rfl
  have hdata : (a ++ "/" ++ b).data = a.data ++ '/' :: b.data := by
    rw [strData_append, strData_append, hsl]
    simp
  have hslash : containsChar (a ++ "/" ++ b) '/' = true := by
    simp [containsChar, hdata]
  have hcolon : containsChar (a ++ "/" ++ b) ':' = false := by
    refine (containsChar_false_iff _ _).mpr ?_
    rw [hdata]
    intro x hx
    rcases List.mem_append.mp hx with hx1 | hx2
    · exact containsChar_eq_false h3 x hx1
    · rcases List.mem_cons.mp hx2 with rfl | hx3
      · decide
      · exact containsChar_eq_false h4 x hx3
  have hsplit : splitCharAll (a.data ++ '/' :: b.data) '/' = [a.data, b.data] :=
    splitCharAll_append a.data b.data '/'
      (containsChar_eq_false h1) (containsChar_eq_false h2)
  have h0 : splitIdx (a ++ "/" ++ b) '/' 0 = a := by
    simp only [splitIdx, pySplit, hdata, hsplit, List.map_cons, List.map_nil]
    rfl
  have h1b : splitIdx (a ++ "/" ++ b) '/' 1 = b := by
    simp only [splitIdx, pySplit, hdata, hsplit, List.map_cons, List.map_nil]
    rfl
  simp [recvLoop, hslash, hcolon, h0, h1b]

theorem C8_witness :
    recvLoop ⟨none, none, false, false⟩ [] ["Asterisk Call Manager/1.1\r\n"] =
      ⟨⟨some "Asterisk Call Manager", some "1.1", false, false⟩,
        [fakeHeader, "Asterisk Call Manager/1.1\r\n"], [], false⟩ := by
  have h := C8_greeting "Asterisk Call Manager" "1.1\r\n" [] false false
    (by decide) (by decide) (by decide) (by decide)
  have e : "Asterisk Call Manager" ++ "/" ++ "1.1\r\n" =
      "Asterisk Call Manager/1.1\r\n" := by decide
  rw [e] at h
  rw [h]
  decide

/-! C2: multi-line framing with Response: Follows. -/

theorem synthMessage_dataLines (m : MMsg) :
    (synthMessage m).dataLines = m.dataLines := by
  unfold synthMessage
  split_ifs <;> rfl

theorem recvLoop_waitMarker (mid : List String) :
    ∀ (t : String) (v : Option String) (ml : Bool) (acc : List String),
      (∀ l ∈ mid, strEndsWith l EOL = true ∧
        strStartsWith l endMarker = false) →
      recvLoop ⟨some t, v, ml, true⟩ acc
          (mid ++ ["--END COMMAND--\r\n", EOL]) =
        ⟨⟨some t, v, false, false⟩, acc ++ mid ++ ["--END COMMAND--\r\n"],
          [], false⟩ := by
  induction mid with
  | nil =>
    intro t v ml acc _
    have m1 : strEndsWith "--END COMMAND--\r\n" EOL = true := by decide
    have m2 : containsChar "--END COMMAND--\r\n" ':' = false := by decide
    have m3 : strStartsWith "--END COMMAND--\r\n" endMarker = true := by decide
    have m4 : (acc ++ ["--END COMMAND--\r\n"]).isEmpty = false := by
      cases acc <;> rfl
    simp [recvLoop, m1, m2, m3, m4]
  | cons l mid ih =>
    intro t v ml acc h
    have hl := h l (List.mem_cons_self l mid)
    have hrest : ∀ x ∈ mid, strEndsWith x EOL = true ∧
        strStartsWith x endMarker = false :=
      fun x hx => h x (List.mem_cons_of_mem l hx)
    simp only [List.cons_append]
    simp [recvLoop, hl.1, hl.2]
    rw [ih t v _ (acc ++ [l]) hrest]
    simp

theorem mem_dropWhile_marker (mid : List String) (hblank : EOL ∈ mid) :
    EOL ∈ (mid ++ ["--END COMMAND--\r\n"]).dropWhile isHeaderLine ∧
    "--END COMMAND--\r\n" ∈
      (mid ++ ["--END COMMAND--\r\n"]).dropWhile isHeaderLine := by
  induction mid with
  | nil => simp at hblank
  | cons x xs ih =>
    by_cases hx : isHeaderLine x = true
    · have hxe : ¬ (EOL = x) := by
        intro he
        rw [← he] at hx
        have : isHeaderLine EOL = false := by decide
        rw [this] at hx
        exact Bool.false_ne_true hx
      have hb : EOL ∈ xs := by
        rcases List.mem_cons.mp hblank with h | h
        · exact absurd h hxe
        · exact h
      rw [List.cons_append, List.dropWhile_cons, if_pos hx]
      exact ih hb
    · have h1 : EOL ∈ x :: (xs ++ ["--END COMMAND--\r\n"]) := by
        rcases List.mem_cons.mp hblank with h | h
        · exact h ▸ List.mem_cons_self _ _
        · exact List.mem_cons_of_mem _ (List.mem_append_left _ h)
      have h2 : "--END COMMAND--\r\n" ∈ x :: (xs ++ ["--END COMMAND--\r\n"]) :=
        List.mem_cons_of_mem _
          (List.mem_append_right _ (List.mem_singleton.mpr rfl))
      rw [List.cons_append, List.dropWhile_cons, if_neg hx]
      exact ⟨h1, h2⟩

/-- C2 (amended): a group opened by a Response: Follows header line,
followed by body lines among which an embedded bare EOL line, then an
end-marker line, then a true blank terminator, is read by the frame
reader as one single group ending at the terminator, and the resulting
message is one message whose free-form body includes the embedded blank
line and also includes the end-marker line itself. -/
theorem C2_follows_framing (t : String) (v : Option String)
    (mid : List String)
    (hmid : ∀ l ∈ mid, strEndsWith l EOL = true ∧
      strStartsWith l endMarker = false)
    (hblank : EOL ∈ mid) :
    recvLoop ⟨some t, v, false, false⟩ []
        ("Response: Follows\r\n" :: mid ++ ["--END COMMAND--\r\n", EOL]) =
      ⟨⟨some t, v, false, false⟩,
        "Response: Follows\r\n" :: mid ++ ["--END COMMAND--\r\n"],
        [], false⟩ ∧
    EOL ∈ (managerMessage
      ("Response: Follows\r\n" :: mid ++ ["--END COMMAND--\r\n"])).dataLines ∧
    "--END COMMAND--\r\n" ∈ (managerMessage
      ("Response: Follows\r\n" :: mid ++ ["--END COMMAND--\r\n"])).dataLines := by
  refine ⟨?_, ?_⟩
  · have e1 : strEndsWith "Response: Follows\r\n" EOL = true := by decide
    have e2 : containsChar "Response: Follows\r\n" ':' = true := by decide
    have e3 : strStartsWith "Response: Follows\r\n" "Response" = true := by
      decide
    have e4 : pyStrip (restAfterColon "Response: Follows\r\n") = "Follows" := by
      decide
    have e5 : ¬ ("Response: Follows\r\n" = EOL) := by decide
    have e6 : strStartsWith "Response: Follows\r\n" endMarker = false := by
      decide
    simp only [List.cons_append]
    simp [recvLoop, e1, e2, e3, e4, e5, e6]
    rw [recvLoop_waitMarker mid t v false ["Response: Follows\r\n"] hmid]
    simp
  · have hdl : (managerMessage
        ("Response: Follows\r\n" :: mid ++ ["--END COMMAND--\r\n"])).dataLines =
        (mid ++ ["--END COMMAND--\r\n"]).dropWhile isHeaderLine := by
      unfold managerMessage
      rw [synthMessage_dataLines]
      unfold parseMessage
      rw [parseLoop_split]
      have hh : isHeaderLine "Response: Follows\r\n" = true := by decide
      simp [List.dropWhile_cons, hh]
    rw [hdl]
    exact mem_dropWhile_marker mid hblank

theorem C2_witness :
    recvLoop ⟨some "Asterisk Call Manager", none, false, false⟩ []
        ["Response: Follows\r\n", "out1\r\n", "\r\n", "--END COMMAND--\r\n",
          "\r\n"] =
      ⟨⟨some "Asterisk Call Manager", none, false, false⟩,
        ["Response: Follows\r\n", "out1\r\n", "\r\n", "--END COMMAND--\r\n"],
        [], false⟩ ∧
    "\r\n" ∈ (managerMessage
      ["Response: Follows\r\n", "out1\r\n", "\r\n",
        "--END COMMAND--\r\n"]).dataLines ∧
    "--END COMMAND--\r\n" ∈ (managerMessage
      ["Response: Follows\r\n", "out1\r\n", "\r\n",
        "--END COMMAND--\r\n"]).dataLines :=
  C2_follows_framing "Asterisk Call Manager" none ["out1\r\n", "\r\n"]
    (by decide) (by decide)

/-- C2, as stated by the specification, is false: for the very group
shape it describes, the free-form body of the parsed message contains
the end-marker line (the classifier even relies on that when it looks
for the marker inside the body), rather than excluding it. -/
theorem C2_counterexample :
    recvLoop ⟨some "Asterisk Call Manager", none, false, false⟩ []
        ["Response: Follows\r\n", "out1\r\n", "\r\n", "--END COMMAND--\r\n",
          "\r\n"] =
      ⟨⟨some "Asterisk Call Manager", none, false, false⟩,
        ["Response: Follows\r\n", "out1\r\n", "\r\n", "--END COMMAND--\r\n"],
        [], false⟩ ∧
    "--END COMMAND--\r\n" ∈ (managerMessage
      ["Response: Follows\r\n", "out1\r\n", "\r\n",
        "--END COMMAND--\r\n"]).dataLines ∧
    hasSub (MMsg.data (managerMessage
      ["Response: Follows\r\n", "out1\r\n", "\r\n", "--END COMMAND--\r\n"]))
      endMarker = true := by
  refine ⟨by decide, by decide, by decide⟩

/-! C9: the connect guard for an already-connected session. -/

/-- The exception hierarchy of the source: ManagerException and its two
subclasses ManagerSocketException and ManagerAuthException. -/
inductive MgrErr
  | mgrException (msg : String)
  | mgrSocketException (errno : Nat) (reason : String)
  | mgrAuthException (msg : String)
deriving DecidableEq

/-- Whether an error is a socket error, a ManagerSocketException. -/
def isSocketError : MgrErr → Bool
  | MgrErr.mgrSocketException _ _ => true
  | _ => false

/-- The observable session flags. -/
structure ManagerState where
  connected : Bool
  running : Bool
deriving DecidableEq

/-- Manager.connect up to its synchronous guard: an already-connected
session raises ManagerException and nothing is touched; otherwise the
handshake succeeds in this model and sets both flags. -/
def connectStep (st : ManagerState) : ManagerState × Option MgrErr :=
  if st.connected then
    (st, some (MgrErr.mgrException "Already connected to manager"))
  else (⟨true, true⟩, none)

/-- C9, as stated by the specification, is false: calling connect on an
already-connected session raises the generic ManagerException, not a
socket error (not a ManagerSocketException), though it does leave the
session state untouched. -/
theorem C9_counterexample :
    connectStep ⟨true, true⟩ =
      (⟨true, true⟩,
        some (MgrErr.mgrException "Already connected to manager")) ∧
    isSocketError (MgrErr.mgrException "Already connected to manager") =
      false := by
  exact ⟨rfl, rfl⟩

/-- C9 (amended): calling connect on an already-connected session fails
synchronously with the generic ManagerException carrying the message
Already connected to manager — which is not a socket error — and leaves
the session state untouched. -/
theorem C9_already_connected (st : ManagerState) (h : st.connected = true) :
    connectStep st =
      (st, some (MgrErr.mgrException "Already connected to manager")) ∧
    ∀ e, (connectStep st).2 = some e → isSocketError e = false := by
  constructor
  · simp [connectStep, h]
  · intro e he
    simp [connectStep, h] at he
    rw [← he]
    rfl

theorem C9_witness :
    connectStep ⟨true, false⟩ =
      (⟨true, false⟩,
        some (MgrErr.mgrException "Already connected to manager")) :=
  (C9_already_connected ⟨true, false⟩ rfl).1

/-! C10: aliasing of the cdict argument of send_action.  The caller
dict lives on an explicit heap of dict cells; the source line
cdict = cdict or ... keeps the caller reference only when the passed
dict is truthy, that is, non-empty, and allocates a fresh dict
otherwise. -/

/-- A heap of Python dict objects, addressed by index. -/
abbrev DictHeap := List PyDict

/-- Dereference a dict cell. -/
def heapGet (h : DictHeap) (r : Nat) : PyDict := h.getD r []

/-- Overwrite a dict cell in place. -/
def heapSet (h : DictHeap) (r : Nat) (d : PyDict) : DictHeap := h.set r d

/-- The mutating start of send_action on the heap: pick the target dict
(the caller cell when non-empty, a fresh cell otherwise), merge the
keyword arguments into it, insert an ActionID when the merged dict lacks
one, and write the result back into the target cell.  Returns the new
heap, the target address and the next sequence value. -/
def sendActionHeap (host : String) (pid seq : Nat) (h : DictHeap) (r : Nat)
    (kwargs : PyDict) : DictHeap × Nat × Nat :=
  let fresh := (heapGet h r).isEmpty
  let target := if fresh then h.length else r
  let h1 := if fresh then h ++ [[]] else h
  let merged := mergeDict (heapGet h1 target) kwargs
  let withId := if dHas merged "ActionID" then merged
    else dSet merged "ActionID" (actionIdStr host pid (nextSeq seq).1)
  let seq2 := if dHas merged "ActionID" then seq else (nextSeq seq).2
  (heapSet h1 target withId, target, seq2)

theorem heapGet_heapSet_self (h : DictHeap) (r : Nat) (d : PyDict)
    (hr : r < h.length) : heapGet (heapSet h r d) r = d := by
  unfold heapGet heapSet
  rw [List.getD_eq_getElem?_getD, List.getElem?_set_self (by simpa using hr)]
  rfl

/-- C10 (amended): when the caller passes a non-empty dict, send_action
mutates it in place through the caller reference: afterwards the
caller cell holds the keyword arguments merged in and, when the merged
dict lacked an ActionID, the auto-assigned ActionID; but when the caller
passes an empty dict, a fresh dict is substituted for it and the caller
cell is left unmodified. -/
theorem C10_cdict_mutation (host : String) (pid seq : Nat) (h : DictHeap)
    (r : Nat) (kwargs : PyDict)
    (hne : (heapGet h r).isEmpty = false) :
    (sendActionHeap host pid seq h r kwargs).2.1 = r ∧
    heapGet (sendActionHeap host pid seq h r kwargs).1 r =
      (if dHas (mergeDict (heapGet h r) kwargs) "ActionID" then
        mergeDict (heapGet h r) kwargs
      else dSet (mergeDict (heapGet h r) kwargs) "ActionID"
        (actionIdStr host pid seq)) ∧
    (dHas (mergeDict (heapGet h r) kwargs) "ActionID" = false →
      dGet (heapGet (sendActionHeap host pid seq h r kwargs).1 r)
        "ActionID" = some (actionIdStr host pid seq)) := by
  have hr : r < h.length := by
    by_contra hge
    have : heapGet h r = [] := by
      unfold heapGet
      rw [List.getD_eq_getElem?_getD, List.getElem?_eq_none (by omega)]
      rfl
    rw [this] at hne
    simp at hne
  refine ⟨?_, ?_, ?_⟩
  · simp [sendActionHeap, hne]
  · simp only [sendActionHeap, hne, Bool.false_eq_true, if_false]
    rw [heapGet_heapSet_self h r _ hr]
    rfl
  · intro hno
    simp only [sendActionHeap, hne, Bool.false_eq_true, if_false]
    rw [heapGet_heapSet_self h r _ hr]
    simp [hno, dGet_dSet, nextSeq]

/-- C10, as stated, is false: a caller passing an empty dict gets no
in-place update at all — the fresh substituted dict receives the merged
fields and the ActionID, while the caller cell stays empty. -/
theorem C10_counterexample :
    (sendActionHeap "host" 1234 0 [[]] 0 [("Action", "Ping")]).2.1 = 1 ∧
    heapGet (sendActionHeap "host" 1234 0 [[]] 0 [("Action", "Ping")]).1 0 =
      [] ∧
    dHas (heapGet (sendActionHeap "host" 1234 0 [[]] 0
      [("Action", "Ping")]).1 0) "ActionID" = false ∧
    heapGet (sendActionHeap "host" 1234 0 [[]] 0 [("Action", "Ping")]).1 1 =
      [("Action", "Ping"), ("ActionID", "host-1234-00000000")] := by
  refine ⟨rfl, rfl, rfl, by decide⟩

theorem C10_witness :
    heapGet (sendActionHeap "host" 1234 0 [[("Action", "Ping")]] 0
        [("Foo", "Bar")]).1 0 =
      [("Action", "Ping"), ("Foo", "Bar"),
        ("ActionID", "host-1234-00000000")] := by
  have h := C10_cdict_mutation "host" 1234 0 [[("Action", "Ping")]] 0
    [("Foo", "Bar")] (by decide)
  rw [h.2.1]
  decide
